import Mathlib

/- Verification of `xfer_remux_mkv.py`, a WeeChat plugin that remuxes a
   completed `.mkv` transfer to `.mp4`: the filename-sanitization and
   output-path-derivation logic (`get_outname`, `fetch_outfile`), the
   transcoder invocation (`do_ffmpeg`, `get_ffmpeg`) and the orchestration
   callback (`xfer_ended_signal_cb`).

   Embedding conventions:
   * Python strings are `String` / `List Char`; the script's regex
     operations are modelled by executable functions on `List Char`.
   * `danger` is the single-character class `~ $ braces ! ? | : whitespace`,
     so `re.sub(danger, "", s)` deletes exactly the matching characters
     (`dangerSub`); the `\s` class is modelled by its ASCII members.
   * `groupnames` is the pattern underscore-run, `[`, lazy run of one or
     more non-whitespace characters, `]`, underscore-run.
     `re.sub(groupnames, "", s)` is modelled by `groupSub`, which performs
     Python's left-to-right scan: at each position the greedy leading
     underscore run must end at a literal opening bracket (backtracking to a
     shorter run cannot help, the next character would still be an
     underscore), the lazy part takes the first closing bracket reachable
     through at least one non-whitespace character, the trailing underscore
     run is greedy, and scanning resumes after the removed match.
   * A `pathlib.Path` is a list of components, already in absolute
     symlink-resolved form, so `.parent` is `dropLast` and
     `.absolute().resolve()` the identity.
   * The WeeChat host, the filesystem and the child process are oracles in
     `Host`; the configuration options are a `Config` record (the host's
     truthy-string conversion is glue, modelled by `Bool`).
   * Python exceptions are `PyExc`; `re.error`, raised by `re.compile` on a
     malformed pattern, subclasses `Exception` directly and not
     `ValueError`, which `isValueError` records.
   * Side effects (directory creation, the child process, source deletion,
     console output) are recorded as an `Event` trace. -/

/-- Python's `\s` class (ASCII members), used by `danger` and, negated, by
the `\S` inside `groupnames`. -/
def isPySpace (c : Char) : Bool :=
  c = ' ' || c = '\t' || c = '\n' || c = '\r' || c = '\x0b' || c = '\x0c'

/-- The character class of `danger` (line 36): tilde, dollar, the two curly
braces, exclamation mark, question mark, pipe, colon, or whitespace. -/
def isDanger (c : Char) : Bool :=
  c = '~' || c = '$' || c = Char.ofNat 123 || c = Char.ofNat 125 ||
  c = '!' || c = '?' || c = '|' || c = ':' || isPySpace c

/-- Model of `re.sub(danger, "", s)`: a single-character class replaced by the empty
string deletes exactly the characters in the class. -/
def dangerSub (l : List Char) : List Char := l.filter (fun c => !isDanger c)

/-- The tail of a `groupnames` match after its opening bracket: the lazy
one-or-more non-whitespace part takes the first closing bracket reachable
through at least one non-whitespace character, then the trailing underscore
run is consumed greedily. Returns the rest of the string after the match,
or `none` when no match starts here. -/
def afterBracket : List Char → Option (List Char)
  | [] => none
  | [_] => none
  | c :: d :: rest =>
    if isPySpace c then none
    else if d = ']' then some (rest.dropWhile (fun x => x = '_'))
    else afterBracket (d :: rest)

/-- A `groupnames` match attempt at the head of `l`: the greedy leading
underscore run must end at a literal opening bracket. Returns the rest of
the string after the match. -/
def groupMatch (l : List Char) : Option (List Char) :=
  match l.dropWhile (fun c => c = '_') with
  | [] => none
  | c :: rest => if c = '[' then afterBracket rest else none

theorem afterBracket_length : ∀ (l r : List Char), afterBracket l = some r → r.length < l.length
  | [], r, h => by simp [afterBracket] at h
  | [_], r, h => by simp [afterBracket] at h
  | c :: d :: rest, r, h => by
    by_cases hc : isPySpace c
    · simp [afterBracket, hc] at h
    · by_cases hd : d = ']'
      · simp [afterBracket, hc, hd] at h
        have := (List.dropWhile_sublist (l := rest) (p := fun x => x = '_')).length_le
        simp only [← h, List.length_cons]
        omega
      · have hrec := afterBracket_length (d :: rest) r
          (by rw [← h]; simp [afterBracket, hc, hd])
        simp only [List.length_cons] at hrec ⊢
        omega

theorem groupMatch_length (l r : List Char) (h : groupMatch l = some r) : r.length < l.length := by
  unfold groupMatch at h
  have hsub := (List.dropWhile_sublist (l := l) (p := fun c => c = '_')).length_le
  rcases hdw : l.dropWhile (fun c => c = '_') with _ | ⟨c, rest⟩
  · rw [hdw] at h; simp at h
  · rw [hdw] at h
    by_cases hc : c = '['
    · simp only [hc, if_true] at h
      have := afterBracket_length rest r h
      rw [hdw] at hsub
      simp only [List.length_cons] at hsub
      omega
    · simp [hc] at h

def groupSubFuel : Nat → List Char → List Char
  | 0, l => l
  | _ + 1, [] => []
  | fuel + 1, c :: t =>
    match groupMatch (c :: t) with
    | some r => groupSubFuel fuel r
    | none => c :: groupSubFuel fuel t

/-- Model of `re.sub(groupnames, "", l)`: remove every match, scanning left to right
and resuming after each removed match. The fuel `l.length` suffices because
every step consumes at least one character. -/
def groupSub (l : List Char) : List Char := groupSubFuel l.length l

theorem groupSubFuel_congr : ∀ (f₁ : Nat) {f₂ : Nat} {l : List Char},
    l.length ≤ f₁ → l.length ≤ f₂ → groupSubFuel f₁ l = groupSubFuel f₂ l := by
  intro f₁
  induction f₁ with
  | zero =>
    intro f₂ l h₁ _
    have : l = [] := by
      cases l with
      | nil => rfl
      | cons c t => simp at h₁
    subst this
    cases f₂ <;> rfl
  | succ f ih =>
    intro f₂ l h₁ h₂
    cases l with
    | nil => cases f₂ <;> rfl
    | cons c t =>
      cases f₂ with
      | zero => simp at h₂
      | succ g =>
        simp only [groupSubFuel]
        rcases hm : groupMatch (c :: t) with _ | r
        · have ht : t.length ≤ f ∧ t.length ≤ g := by
            simp only [List.length_cons] at h₁ h₂; omega
          show c :: groupSubFuel f t = c :: groupSubFuel g t
          rw [ih ht.1 ht.2]
        · have hr := groupMatch_length _ _ hm
          have hle : r.length ≤ f ∧ r.length ≤ g := by
            simp only [List.length_cons] at h₁ h₂ hr; omega
          show groupSubFuel f r = groupSubFuel g r
          exact ih hle.1 hle.2

theorem groupSub_nil : groupSub [] = [] := rfl

theorem groupSub_cons_some {c : Char} {t r : List Char} (h : groupMatch (c :: t) = some r) :
    groupSub (c :: t) = groupSub r := by
  have hr := groupMatch_length _ _ h
  simp only [List.length_cons] at hr
  unfold groupSub
  simp only [List.length_cons, groupSubFuel, h]
  exact groupSubFuel_congr t.length (by omega) (le_refl _)

theorem groupSub_cons_none {c : Char} {t : List Char} (h : groupMatch (c :: t) = none) :
    groupSub (c :: t) = c :: groupSub t := by
  unfold groupSub
  simp only [List.length_cons, groupSubFuel, h]

/-- Python `str.replace("_-_", "-")`: scan left to right, replacing
non-overlapping occurrences and resuming after each replacement. -/
def pyReplace : List Char → List Char
  | c :: d :: e :: rest =>
    if c = '_' && d = '-' && e = '_' then '-' :: pyReplace rest
    else c :: pyReplace (d :: e :: rest)
  | l => l

/-- Python `name.split(".")`. -/
def splitDot : List Char → List (List Char)
  | [] => [[]]
  | c :: t =>
    if c = '.' then [] :: splitDot t
    else
      match splitDot t with
      | [] => [[c]]
      | s :: ss => (c :: s) :: ss

/-- The literal suffix appended by `get_outname`. -/
def mp4Suffix : List Char := ['.', 'm', 'p', '4']

/-- Steps 1 and 2 of `get_outname` (lines 89 and 90): split the basename on
dots, drop the first segment, join all remaining segments but the last with
no separator, append `.mp4`. -/
def spliced_name (name : List Char) : List Char :=
  (((splitDot name).drop 1).dropLast).flatten ++ mp4Suffix

/-- Python exceptions the script can raise or catch. `reError` models
`re.error`, which subclasses `Exception` directly — not `ValueError` — so
the handler's `except ValueError` does not catch it. -/
inductive PyExc
  | valueError (msg : String)
  | reError (msg : String)
deriving DecidableEq

def isValueError : PyExc → Bool
  | PyExc.valueError _ => true
  | PyExc.reError _ => false

deriving instance DecidableEq for Except

/-- Function `get_outname` (lines 81 to 99): derive the sanitized output basename.
`compile` models `re.compile` together with the substitution semantics
`re.sub(compiled, "", ·)` of the compiled override pattern; `Except.error`
is a malformed pattern, on which `re.compile` raises `re.error`. -/
def get_outname (compile : String → Except String (List Char → List Char))
    (patternCfg : String) (name : List Char) : Except PyExc (List Char) :=
  let spliced := spliced_name name
  if patternCfg.length > 0 then
    match compile patternCfg with
    | Except.error m => Except.error (PyExc.reError m)
    | Except.ok f => Except.ok (pyReplace (groupSub (f spliced)))
  else
    Except.ok (pyReplace (groupSub (dangerSub spliced)))

/-- Predicate for `re.search(groupnames, l)` succeeding: some position of `l` starts a
`groupnames` match. -/
def hasGroupMatch : List Char → Bool
  | [] => false
  | c :: t => (groupMatch (c :: t)).isSome || hasGroupMatch t

/-- A `pathlib.Path` in absolute, symlink-resolved form, as its list of
components: `.parent` is `dropLast` and `.name` the last component. -/
abbrev PyPath := List String

def pathName (p : PyPath) : String := p.getLast?.getD ""

def pathToStr (p : PyPath) : String := String.intercalate ("/") p

/-- Python `str.endswith`: the last `sfx.length` characters equal `sfx`. -/
def pyEndsWith (s sfx : List Char) : Bool := List.drop (s.length - sfx.length) s == sfx

/-- The observable side effects of one invocation of the script. -/
inductive Event
  | mkdir (p : PyPath)
  | runProc (args : List String) (stdoutDevnull stderrDevnull : Bool)
  | unlink (p : PyPath)
  | print (msg : String)
deriving DecidableEq

def isRunProcEvent : Event → Bool
  | Event.runProc _ _ _ => true
  | _ => false

def isUnlinkEvent : Event → Bool
  | Event.unlink _ => true
  | _ => false

def isMkdirEvent : Event → Bool
  | Event.mkdir _ => true
  | _ => false

/-- The plugin's configuration options (lines 27 to 33). The host stores
them as strings; its truthy-string conversion is glue, modelled by `Bool`
for the three flags. -/
structure Config where
  ffmpeg : String
  pattern : String
  keep : Bool
  overwrite : Bool
  debug : Bool

/-- Oracles for the world outside the script: the filesystem query
`Path.is_file`, the result of `shutil.which("ffmpeg")`, `re.compile`
(paired with the substitution semantics of the compiled pattern), and the
child process's exit status for `subprocess.call`. -/
structure Host where
  isFile : PyPath → Bool
  which_ffmpeg : Option String
  compile : String → Except String (List Char → List Char)
  call : List String → Int

/-- Function `fetch_outfile` (lines 101 to 121): validate the input path, ensure the
sibling `processed` directory (the `mkdir` happens before `get_outname` is
called), and build the full output path. -/
def fetch_outfile (compile : String → Except String (List Char → List Char))
    (patternCfg : String) (isFile : PyPath → Bool) (infile : PyPath) :
    Except PyExc PyPath × List Event :=
  if !(isFile infile) then
    (Except.error (PyExc.valueError (pathToStr infile ++ " is not a file or symlink!")), [])
  else if !(pyEndsWith (pathName infile).toList ((".mkv").toList)) then
    (Except.error (PyExc.valueError (pathName infile ++ " is not a matroska video file!")), [])
  else
    let outdir := infile.dropLast.dropLast ++ ["processed"]
    match get_outname compile patternCfg (pathName infile).toList with
    | Except.error e => (Except.error e, [Event.mkdir outdir])
    | Except.ok outname => (Except.ok (outdir ++ [outname.asString]), [Event.mkdir outdir])

/-- Function `get_ffmpeg` (lines 162 to 170): a non-empty configured path is
returned unchecked; otherwise `shutil.which("ffmpeg")` decides, and `none`
raises `EnvironmentError` with the message below. -/
def get_ffmpeg (custom : String) (which_ffmpeg : Option String) : Except String String :=
  let ffmpeg := if custom.length > 0 then some custom else which_ffmpeg
  match ffmpeg with
  | none => Except.error
      ("Error: ffmpeg could not be found on the system! Please install ffmpeg or unload this plugin!")
  | some f => Except.ok f

/-- The argument list built by `do_ffmpeg` (lines 131 to 142): the fixed
stream-copy remux command, with `-y` appended exactly when the `overwrite`
flag is set. -/
def do_ffmpeg_args (ffmpeg infile outfile : String) (overwrite : Bool) : List String :=
  [ffmpeg, "-i", infile, "-c", "copy", "-strict", "-2", "-c:s", "mov_text", outfile] ++
    (if overwrite then ["-y"] else [])

/-- Function `do_ffmpeg` (lines 124 to 144): run the command with the child's
standard output and standard error sent to `DEVNULL`, and return the raw
exit status of `subprocess.call`. -/
def do_ffmpeg (host : Host) (overwrite : Bool) (ffmpeg infile outfile : String) :
    Int × List Event :=
  let args := do_ffmpeg_args ffmpeg infile outfile overwrite
  (host.call args, [Event.runProc args true true])

/-- Function `xfer_ended_signal_cb` (lines 40 to 79): the transfer-completed
handler. `filename` and `local_filepath` are the two infolist fields the
host supplies. A caught `EnvironmentError` or `ValueError` prints and
returns status 1; any other exception propagates (`Except.error`). The
`except NameError` around `do_ffmpeg` cannot fire in this model (the
Python `NameError` would require an undefined global). -/
def xfer_ended_signal_cb (host : Host) (cfg : Config) (filename : String)
    (local_filepath : PyPath) : Except PyExc Int × List Event :=
  match get_ffmpeg cfg.ffmpeg host.which_ffmpeg with
  | Except.error e => (Except.ok 1, [Event.print e])
  | Except.ok ffmpeg =>
    match fetch_outfile host.compile cfg.pattern host.isFile local_filepath with
    | (Except.error (PyExc.valueError m), evs) =>
        (Except.ok 1, evs ++ [Event.print ("Outfile fetch error!: " ++ m ++ " \n")])
    | (Except.error e, evs) => (Except.error e, evs)
    | (Except.ok outfile, evs) =>
      if cfg.debug then
        (Except.ok 0, evs ++ [Event.print
          ("Infile path: `" ++ pathToStr local_filepath ++ "` \nOutfile path: `" ++
            pathToStr outfile ++ "` \n")])
      else
        let res := do_ffmpeg host cfg.overwrite ffmpeg (pathToStr local_filepath)
          (pathToStr outfile)
        let evs2 := evs ++ res.2 ++ [Event.print
          ("Your file " ++ filename ++ " has been converted to mp4 and stored in " ++
            pathToStr outfile)]
        if cfg.keep then (Except.ok res.1, evs2)
        else
          (Except.ok res.1, evs2 ++ [Event.unlink local_filepath,
            Event.print ("Due to your preferences, the original mkv has been removed \n")])

theorem groupMatch_nil : groupMatch [] = none := rfl

theorem groupMatch_underscore (t : List Char) : groupMatch ('_' :: t) = groupMatch t := rfl

theorem groupMatch_bracket (t : List Char) : groupMatch ('[' :: t) = afterBracket t := rfl

theorem groupMatch_other {c : Char} (h1 : c ≠ '_') (h2 : c ≠ '[') (t : List Char) :
    groupMatch (c :: t) = none := by
  unfold groupMatch
  rw [List.dropWhile_cons]
  simp [h1, h2]

theorem ws_underscore : isPySpace '_' = false := by decide

theorem ws_dash : isPySpace '-' = false := by decide

theorem ws_obracket : isPySpace '[' = false := by decide

/-- If `isPySpace c` holds, no match tail can start at `c :: t`. -/
theorem afterBracket_ws {c : Char} (hc : isPySpace c = true) (t : List Char) :
    afterBracket (c :: t) = none := by
  cases t with
  | nil => rfl
  | cons d t' => simp [afterBracket, hc]

/-- A successful `groupMatch` at the head means its closing bracket is
reachable: `afterBracket` also succeeds on the whole string. -/
theorem afterBracket_isSome_of_groupMatch :
    ∀ (l r : List Char), groupMatch l = some r → (afterBracket l).isSome = true
  | [], r, h => by simp [groupMatch_nil] at h
  | c :: t, r, h => by
    by_cases hu : c = '_'
    · subst hu
      rw [groupMatch_underscore] at h
      cases t with
      | nil => simp [groupMatch_nil] at h
      | cons d t' =>
        have ih := afterBracket_isSome_of_groupMatch (d :: t') r h
        by_cases hd : d = ']'
        · simp [afterBracket, ws_underscore, hd]
        · simpa [afterBracket, ws_underscore, hd] using ih
    · by_cases hb : c = '['
      · subst hb
        rw [groupMatch_bracket] at h
        cases t with
        | nil => simp [afterBracket] at h
        | cons d t' =>
          by_cases hd : d = ']'
          · simp [afterBracket, ws_obracket, hd]
          · simp only [afterBracket, ws_obracket, hd]
            simp [h]
      · rw [groupMatch_other hu hb] at h
        simp at h
termination_by l r h => l.length

/-- Removing `groupnames` matches cannot create a reachable closing
bracket where none was reachable before. -/
theorem afterBracket_groupSub_none :
    ∀ (l : List Char), afterBracket l = none → afterBracket (groupSub l) = none
  | [], _ => by rw [groupSub_nil]; rfl
  | c :: t, h => by
    rcases hm : groupMatch (c :: t) with _ | r
    · rw [groupSub_cons_none hm]
      by_cases hc : isPySpace c
      · exact afterBracket_ws hc _
      · cases t with
        | nil => rw [groupSub_nil]; rfl
        | cons d t' =>
          have hd : d ≠ ']' := by
            intro hd
            rw [afterBracket, if_neg (by simp [hc]), if_pos (by simp [hd])] at h
            simp at h
          have ht : afterBracket (d :: t') = none := by
            rw [afterBracket, if_neg (by simp [hc]), if_neg (by simp [hd])] at h
            exact h
          rcases hm2 : groupMatch (d :: t') with _ | r2
          · rw [groupSub_cons_none hm2]
            have ih := afterBracket_groupSub_none (d :: t') ht
            rw [groupSub_cons_none hm2] at ih
            rw [afterBracket, if_neg (by simp [hc]), if_neg (by simp [hd])]
            exact ih
          · have := afterBracket_isSome_of_groupMatch (d :: t') r2 hm2
            rw [ht] at this
            simp at this
    · have := afterBracket_isSome_of_groupMatch (c :: t) r hm
      rw [h] at this
      simp at this
termination_by l h => l.length

/-- Predicate: `groupnames` would match somewhere in `l`, with the match start given
directly by its opening bracket. -/
def hasTag : List Char → Bool
  | [] => false
  | c :: t => (c = '[' && (afterBracket t).isSome) || hasTag t

/-- The output of `groupSub` contains no `groupnames` match at all:
every opening bracket that survives has whitespace (or the end of the
string) before any later closing bracket. -/
theorem hasTag_groupSub : ∀ (l : List Char), hasTag (groupSub l) = false
  | [] => by rw [groupSub_nil]; rfl
  | c :: t => by
    rcases hm : groupMatch (c :: t) with _ | r
    · rw [groupSub_cons_none hm]
      simp only [hasTag]
      rw [hasTag_groupSub t]
      by_cases hc : c = '['
      · subst hc
        rw [groupMatch_bracket] at hm
        rw [afterBracket_groupSub_none t hm]
        simp
      · simp [hc]
    · rw [groupSub_cons_some hm]
      exact hasTag_groupSub r
termination_by l => l.length
decreasing_by
  · simp
  · simpa using groupMatch_length _ _ hm

theorem hasTag_of_groupMatch : ∀ (l r : List Char), groupMatch l = some r → hasTag l = true
  | [], r, h => by simp [groupMatch_nil] at h
  | c :: t, r, h => by
    by_cases hu : c = '_'
    · subst hu
      rw [groupMatch_underscore] at h
      simp only [hasTag]
      rw [hasTag_of_groupMatch t r h]
      simp
    · by_cases hb : c = '['
      · subst hb
        rw [groupMatch_bracket] at h
        simp [hasTag, h]
      · rw [groupMatch_other hu hb] at h
        simp at h
termination_by l r h => l.length

theorem hasGroupMatch_eq_hasTag : ∀ (l : List Char), hasGroupMatch l = hasTag l
  | [] => rfl
  | c :: t => by
    simp only [hasGroupMatch, hasTag]
    rw [hasGroupMatch_eq_hasTag t]
    by_cases hu : c = '_'
    · subst hu
      rw [groupMatch_underscore]
      rcases hm : groupMatch t with _ | r
      · simp
      · rw [hasTag_of_groupMatch t r hm]
        simp
    · by_cases hb : c = '['
      · subst hb
        rw [groupMatch_bracket]
        simp
      · rw [groupMatch_other hu hb]
        simp [hb]
termination_by l => l.length

/-- Function `pyReplace` keeps the head character or turns it into a dash. -/
theorem pyReplace_cons : ∀ (d : Char) (t : List Char),
    (∃ r, pyReplace (d :: t) = d :: r) ∨ (∃ r, pyReplace (d :: t) = '-' :: r)
  | d, [] => Or.inl ⟨[], rfl⟩
  | d, [e] => Or.inl ⟨[e], rfl⟩
  | d, e :: f :: r => by
    by_cases h3 : (d = '_' && e = '-' && f = '_') = true
    · right
      exact ⟨pyReplace r, by rw [pyReplace, if_pos h3]⟩
    · left
      exact ⟨pyReplace (e :: f :: r), by rw [pyReplace, if_neg h3]⟩

/-- Replacing `_-_` by `-` cannot make a closing bracket reachable:
whitespace is preserved and no bracket is created or destroyed. -/
theorem afterBracket_pyReplace_none :
    ∀ (l : List Char), afterBracket l = none → afterBracket (pyReplace l) = none
  | [], _ => rfl
  | [_], _ => rfl
  | [c, d], h => h
  | c :: d :: e :: rest, h => by
    by_cases h3 : (c = '_' && d = '-' && e = '_') = true
    · rw [pyReplace, if_pos h3]
      have hc : c = '_' := by
        rcases Bool.and_eq_true_iff.mp h3 with ⟨h', _⟩
        rcases Bool.and_eq_true_iff.mp h' with ⟨hc, _⟩
        exact of_decide_eq_true hc
      have hd : d = '-' := by
        rcases Bool.and_eq_true_iff.mp h3 with ⟨h', _⟩
        rcases Bool.and_eq_true_iff.mp h' with ⟨_, hd⟩
        exact of_decide_eq_true hd
      have he : e = '_' := by
        rcases Bool.and_eq_true_iff.mp h3 with ⟨_, he⟩
        exact of_decide_eq_true he
      subst hc; subst hd; subst he
      rw [afterBracket, if_neg (by simp [ws_underscore]),
        if_neg (by decide : ¬(('-' : Char) = ']'))] at h
      rw [afterBracket, if_neg (by simp [ws_dash]),
        if_neg (by decide : ¬(('_' : Char) = ']'))] at h
      cases rest with
      | nil => rfl
      | cons g r' =>
        have hg : g ≠ ']' := by
          intro hg
          rw [afterBracket, if_neg (by simp [ws_underscore]), if_pos (by simp [hg])] at h
          simp at h
        have hr : afterBracket (g :: r') = none := by
          rw [afterBracket, if_neg (by simp [ws_underscore]), if_neg (by simp [hg])] at h
          exact h
        have ih := afterBracket_pyReplace_none (g :: r') hr
        rcases pyReplace_cons g r' with ⟨x, hx⟩ | ⟨x, hx⟩
        · rw [hx] at ih ⊢
          rw [afterBracket, if_neg (by simp [ws_dash]), if_neg (by simp [hg])]
          exact ih
        · rw [hx] at ih ⊢
          rw [afterBracket, if_neg (by simp [ws_dash]),
            if_neg (by decide : ¬(('-' : Char) = ']'))]
          exact ih
    · rw [pyReplace, if_neg h3]
      by_cases hc : isPySpace c
      · exact afterBracket_ws hc _
      · have hd : d ≠ ']' := by
          intro hd
          rw [afterBracket, if_neg (by simp [hc]), if_pos (by simp [hd])] at h
          simp at h
        have hrest : afterBracket (d :: e :: rest) = none := by
          rw [afterBracket, if_neg (by simp [hc]), if_neg (by simp [hd])] at h
          exact h
        have ih := afterBracket_pyReplace_none (d :: e :: rest) hrest
        rcases pyReplace_cons d (e :: rest) with ⟨x, hx⟩ | ⟨x, hx⟩
        · rw [hx] at ih ⊢
          rw [afterBracket, if_neg (by simp [hc]), if_neg (by simp [hd])]
          exact ih
        · rw [hx] at ih ⊢
          rw [afterBracket, if_neg (by simp [hc]),
            if_neg (by decide : ¬(('-' : Char) = ']'))]
          exact ih
termination_by l h => l.length

/-- Replacing `_-_` by `-` cannot introduce a `groupnames` match. -/
theorem hasTag_pyReplace :
    ∀ (l : List Char), hasTag l = false → hasTag (pyReplace l) = false
  | [], h => h
  | [_], h => h
  | [c, d], h => h
  | c :: d :: e :: rest, h => by
    simp only [hasTag, Bool.or_eq_false_iff] at h
    obtain ⟨h1, h2, h3, h4⟩ := h
    by_cases ht : (c = '_' && d = '-' && e = '_') = true
    · rw [pyReplace, if_pos ht]
      simp only [hasTag, Bool.or_eq_false_iff]
      constructor
      · simp
      · exact hasTag_pyReplace rest h4
    · rw [pyReplace, if_neg ht]
      simp only [hasTag, Bool.or_eq_false_iff]
      have hrest : hasTag (d :: e :: rest) = false := by
        simp [hasTag, h2, h3, h4]
      have ih := hasTag_pyReplace (d :: e :: rest) hrest
      refine ⟨?_, ih⟩
      by_cases hc : c = '['
      · subst hc
        simp only [decide_True, Bool.true_and] at h1 ⊢
        have hab : afterBracket (d :: e :: rest) = none := by
          cases hv : afterBracket (d :: e :: rest) with
          | none => rfl
          | some v => rw [hv] at h1; simp at h1
        rw [afterBracket_pyReplace_none (d :: e :: rest) hab]
        rfl
      · simp [hc]
termination_by l h => l.length

/-- The final basename built by `get_outname` never contains a
`groupnames` match: the group-tag removal pass removes every tag and the
trailing `_-_` replacement cannot reintroduce one. -/
theorem hasGroupMatch_pyReplace_groupSub (l : List Char) :
    hasGroupMatch (pyReplace (groupSub l)) = false := by
  rw [hasGroupMatch_eq_hasTag]
  exact hasTag_pyReplace _ (hasTag_groupSub l)

theorem dropWhile_underscore_append_mp4 (A : List Char) :
    List.dropWhile (fun c => c = '_') (A ++ mp4Suffix) =
      List.dropWhile (fun c => c = '_') A ++ mp4Suffix := by
  induction A with
  | nil => rfl
  | cons c t ih =>
    rw [List.cons_append, List.dropWhile_cons, List.dropWhile_cons]
    by_cases hc : c = '_'
    · simp only [hc, decide_True, if_true]
      exact ih
    · simp [hc]

theorem afterBracket_mp4 : afterBracket mp4Suffix = none := by decide

/-- A match tail taken inside a string ending in `.mp4` cannot consume the
suffix: its closing bracket lies before it, and the trailing underscore run
stops at the dot. -/
theorem afterBracket_append_mp4 :
    ∀ (T r : List Char), afterBracket (T ++ mp4Suffix) = some r → ∃ w, r = w ++ mp4Suffix
  | [], r, h => by
    rw [List.nil_append, afterBracket_mp4] at h
    simp at h
  | [c], r, h => by
    by_cases hc : isPySpace c
    · rw [show ([c] ++ mp4Suffix) = c :: mp4Suffix from rfl, afterBracket_ws hc] at h
      simp at h
    · rw [show ([c] ++ mp4Suffix) = c :: '.' :: 'm' :: 'p' :: '4' :: [] from rfl,
        afterBracket, if_neg (by simp [hc]), if_neg (by decide : ¬(('.' : Char) = ']'))] at h
      rw [show ('.' :: 'm' :: 'p' :: '4' :: [] : List Char) = mp4Suffix from rfl,
        afterBracket_mp4] at h
      simp at h
  | c :: d :: T, r, h => by
    rw [show ((c :: d :: T) ++ mp4Suffix) = c :: d :: (T ++ mp4Suffix) from rfl] at h
    by_cases hc : isPySpace c
    · rw [afterBracket, if_pos (by simp [hc])] at h
      simp at h
    · by_cases hd : d = ']'
      · rw [afterBracket, if_neg (by simp [hc]), if_pos hd] at h
        refine ⟨List.dropWhile (fun x => x = '_') T, ?_⟩
        rw [← Option.some_inj.mp h, dropWhile_underscore_append_mp4]
      · rw [afterBracket, if_neg (by simp [hc]), if_neg hd] at h
        exact afterBracket_append_mp4 (d :: T) r h
termination_by T r h => T.length

theorem groupMatch_append_mp4 (X r : List Char) (h : groupMatch (X ++ mp4Suffix) = some r) :
    ∃ w, r = w ++ mp4Suffix := by
  unfold groupMatch at h
  rw [dropWhile_underscore_append_mp4] at h
  rcases hdw : List.dropWhile (fun c => c = '_') X with _ | ⟨c, rest⟩
  · rw [hdw] at h
    simp [mp4Suffix] at h
  · rw [hdw, List.cons_append] at h
    have h' : (if c = '[' then afterBracket (rest ++ mp4Suffix) else none) = some r := h
    by_cases hc : c = '['
    · rw [if_pos hc] at h'
      exact afterBracket_append_mp4 rest r h'
    · rw [if_neg hc] at h'
      simp at h'

theorem groupSub_mp4 : groupSub mp4Suffix = mp4Suffix := by decide

/-- Group-tag removal never touches the trailing `.mp4`. -/
theorem groupSub_append_mp4 (X : List Char) :
    ∃ z, groupSub (X ++ mp4Suffix) = z ++ mp4Suffix := by
  generalize hn : X.length = n
  induction n using Nat.strong_induction_on generalizing X with
  | _ n ih =>
    cases X with
    | nil =>
      exact ⟨[], by rw [List.nil_append, groupSub_mp4]⟩
    | cons c t =>
      rw [List.cons_append]
      rcases hm : groupMatch (c :: (t ++ mp4Suffix)) with _ | r
      · rw [groupSub_cons_none hm]
        obtain ⟨z, hz⟩ := ih t.length (by rw [← hn]; simp) t rfl
        exact ⟨c :: z, by rw [hz, List.cons_append]⟩
      · rw [groupSub_cons_some hm]
        have hcm : groupMatch ((c :: t) ++ mp4Suffix) = some r := by
          rw [List.cons_append]; exact hm
        obtain ⟨w, hw⟩ := groupMatch_append_mp4 (c :: t) r hcm
        have hlen := groupMatch_length _ _ hcm
        subst hw
        have hwlen : w.length < n := by
          rw [← hn]
          simp only [List.length_append, List.length_cons] at hlen ⊢
          omega
        obtain ⟨z, hz⟩ := ih w.length hwlen w rfl
        exact ⟨z, hz⟩

theorem pyReplace_mp4 : pyReplace mp4Suffix = mp4Suffix := by decide

/-- The `_-_` replacement never touches the trailing `.mp4`: no occurrence
can overlap it, because neither `.` nor `m` can stand where the pattern
needs a dash or an underscore. -/
theorem pyReplace_append_mp4 :
    ∀ (Z : List Char), ∃ w, pyReplace (Z ++ mp4Suffix) = w ++ mp4Suffix
  | [] => ⟨[], by rw [List.nil_append, pyReplace_mp4]⟩
  | [c] => ⟨[c], by simp [pyReplace, mp4Suffix]⟩
  | [c, d] => ⟨[c, d], by simp [pyReplace, mp4Suffix]⟩
  | c :: d :: e :: rest => by
    by_cases h3 : (c = '_' && d = '-' && e = '_') = true
    · obtain ⟨w, hw⟩ := pyReplace_append_mp4 rest
      refine ⟨'-' :: w, ?_⟩
      have hstep : pyReplace ((c :: d :: e :: rest) ++ mp4Suffix) =
          '-' :: pyReplace (rest ++ mp4Suffix) := by
        show pyReplace (c :: d :: e :: (rest ++ mp4Suffix)) = '-' :: pyReplace (rest ++ mp4Suffix)
        simp only [pyReplace]
        rw [if_pos h3]
      rw [hstep, hw, List.cons_append]
    · obtain ⟨w, hw⟩ := pyReplace_append_mp4 (d :: e :: rest)
      refine ⟨c :: w, ?_⟩
      have hstep : pyReplace ((c :: d :: e :: rest) ++ mp4Suffix) =
          c :: pyReplace ((d :: e :: rest) ++ mp4Suffix) := by
        show pyReplace (c :: d :: e :: (rest ++ mp4Suffix)) =
          c :: pyReplace (d :: e :: (rest ++ mp4Suffix))
        simp only [pyReplace]
        rw [if_neg h3]
      rw [hstep, hw, List.cons_append]
termination_by Z => Z.length

theorem dangerSub_append_mp4 (A : List Char) :
    dangerSub (A ++ mp4Suffix) = dangerSub A ++ mp4Suffix := by
  unfold dangerSub
  rw [List.filter_append,
    show List.filter (fun c => !isDanger c) mp4Suffix = mp4Suffix from by decide]

/-- The default derivation keeps the literal `.mp4` suffix intact. -/
theorem default_outname_append_mp4 (name : List Char) :
    ∃ w, pyReplace (groupSub (dangerSub (spliced_name name))) = w ++ mp4Suffix := by
  unfold spliced_name
  rw [dangerSub_append_mp4]
  obtain ⟨z, hz⟩ := groupSub_append_mp4 (dangerSub ((((splitDot name).drop 1).dropLast).flatten))
  rw [hz]
  exact pyReplace_append_mp4 z

theorem pyEndsWith_append (z sfx : List Char) : pyEndsWith (z ++ sfx) sfx = true := by
  unfold pyEndsWith
  have hl : (z ++ sfx).length - sfx.length = z.length := by simp
  rw [hl, List.drop_left]
  simp

theorem afterBracket_subset : ∀ (l r : List Char), afterBracket l = some r → ∀ c, c ∈ r → c ∈ l
  | [], r, h => by simp [afterBracket] at h
  | [_], r, h => by simp [afterBracket] at h
  | a :: d :: rest, r, h => by
    by_cases hc : isPySpace a
    · rw [afterBracket_ws hc] at h
      simp at h
    · by_cases hd : d = ']'
      · rw [afterBracket, if_neg (by simp [hc]), if_pos hd] at h
        intro c hcr
        rw [← Option.some_inj.mp h] at hcr
        have := (List.dropWhile_sublist (l := rest) (p := fun x => x = '_')).subset hcr
        exact List.mem_cons_of_mem _ (List.mem_cons_of_mem _ this)
      · rw [afterBracket, if_neg (by simp [hc]), if_neg hd] at h
        intro c hcr
        exact List.mem_cons_of_mem _ (afterBracket_subset (d :: rest) r h c hcr)
termination_by l r h => l.length

theorem groupMatch_subset (l r : List Char) (h : groupMatch l = some r) :
    ∀ c, c ∈ r → c ∈ l := by
  unfold groupMatch at h
  rcases hdw : List.dropWhile (fun c => c = '_') l with _ | ⟨a, rest⟩
  · rw [hdw] at h
    simp at h
  · rw [hdw] at h
    have h' : (if a = '[' then afterBracket rest else none) = some r := h
    by_cases ha : a = '['
    · rw [if_pos ha] at h'
      intro c hcr
      have h1 : c ∈ a :: rest := List.mem_cons_of_mem _ (afterBracket_subset rest r h' c hcr)
      rw [← hdw] at h1
      exact (List.dropWhile_sublist (l := l) (p := fun c => c = '_')).subset h1
    · rw [if_neg ha] at h'
      simp at h'

theorem groupSub_subset : ∀ (l : List Char), ∀ c, c ∈ groupSub l → c ∈ l
  | [] => by rw [groupSub_nil]; intro c hc; exact hc
  | a :: t => by
    rcases hm : groupMatch (a :: t) with _ | r
    · rw [groupSub_cons_none hm]
      intro c hc
      rcases List.mem_cons.mp hc with h | h
      · exact h ▸ List.mem_cons_self _ _
      · exact List.mem_cons_of_mem _ (groupSub_subset t c h)
    · rw [groupSub_cons_some hm]
      intro c hc
      exact groupMatch_subset _ _ hm c (groupSub_subset r c hc)
termination_by l => l.length
decreasing_by
  · simp
  · simpa using groupMatch_length _ _ hm

theorem pyReplace_subset : ∀ (l : List Char), ∀ c, c ∈ pyReplace l → c ∈ l ∨ c = '-'
  | [] => by intro c hc; exact Or.inl hc
  | [_] => by intro c hc; exact Or.inl hc
  | [_, _] => by intro c hc; exact Or.inl hc
  | a :: b :: e :: rest => by
    by_cases h3 : (a = '_' && b = '-' && e = '_') = true
    · rw [pyReplace, if_pos h3]
      intro c hc
      rcases List.mem_cons.mp hc with h | h
      · exact Or.inr h
      · rcases pyReplace_subset rest c h with h' | h'
        · exact Or.inl (by simp [h'])
        · exact Or.inr h'
    · rw [pyReplace, if_neg h3]
      intro c hc
      rcases List.mem_cons.mp hc with h | h
      · exact Or.inl (h ▸ List.mem_cons_self _ _)
      · rcases pyReplace_subset (b :: e :: rest) c h with h' | h'
        · exact Or.inl (List.mem_cons_of_mem _ h')
        · exact Or.inr h'
termination_by l => l.length

theorem dangerSub_mem (l : List Char) (c : Char) (hc : c ∈ dangerSub l) :
    isDanger c = false := by
  have := (List.mem_filter.mp hc).2
  simpa using this

/-- No character of the default-configuration output basename is in the
danger class. -/
theorem default_outname_no_danger (name : List Char) (c : Char)
    (hc : c ∈ pyReplace (groupSub (dangerSub (spliced_name name)))) :
    isDanger c = false := by
  rcases pyReplace_subset _ c hc with h | h
  · exact dangerSub_mem _ c (groupSub_subset _ c h)
  · rw [h]
    decide

/-- With the default (empty) override configuration, `get_outname` is the
danger-filter, group-tag removal and `_-_` replacement pipeline. -/
theorem get_outname_default (compile : String → Except String (List Char → List Char))
    (name : List Char) :
    get_outname compile "" name =
      Except.ok (pyReplace (groupSub (dangerSub (spliced_name name)))) := rfl

/-- When `fetch_outfile` succeeds, its event trace is exactly the creation
of the sibling `processed` directory. -/
theorem fetch_ok_events {compile : String → Except String (List Char → List Char)}
    {patternCfg : String} {isFile : PyPath → Bool} {infile outfile : PyPath} {evs : List Event}
    (h : fetch_outfile compile patternCfg isFile infile = (Except.ok outfile, evs)) :
    evs = [Event.mkdir (infile.dropLast.dropLast ++ ["processed"])] := by
  unfold fetch_outfile at h
  by_cases h1 : isFile infile = true
  · simp only [h1, Bool.not_true, Bool.false_eq_true, if_false] at h
    by_cases h2 : pyEndsWith (pathName infile).toList ((".mkv").toList) = true
    · simp only [h2, Bool.not_true, Bool.false_eq_true, if_false] at h
      rcases hg : get_outname compile patternCfg (pathName infile).toList with e | o
      · rw [hg] at h
        exact absurd (congrArg (fun p => p.1) h) (by simp)
      · rw [hg] at h
        exact (congrArg (fun p => p.2) h).symm
    · rw [Bool.not_eq_true] at h2
      simp only [h2, Bool.not_false, if_true] at h
      exact absurd (congrArg (fun p => p.1) h) (by simp)
  · rw [Bool.not_eq_true] at h1
    simp only [h1, Bool.not_false, if_true] at h
    exact absurd (congrArg (fun p => p.1) h) (by simp)

/-- C1 counterexample: the claim quantifies over every configuration, but a
custom override pattern may delete characters of the appended `.mp4`
suffix. With override pattern `4` (whose substitution deletes every `4`),
the valid input `a/b/x.y.mkv` resolves to basename `y.mp`, which does not
end in `.mp4`. -/
theorem claim_C1_counterexample :
    fetch_outfile (fun _ => Except.ok (fun l => l.filter (fun c => c ≠ '4'))) "4"
        (fun _ => true) ["a", "b", "x.y.mkv"] =
      (Except.ok ["a", "processed", "y.mp"], [Event.mkdir ["a", "processed"]]) ∧
    pyEndsWith (("y.mp").toList) mp4Suffix = false := by
  constructor
  · decide
  · decide

/-- C1 (amended): with the default configuration (no override pattern),
`fetch_outfile` maps every existing regular file whose name ends in `.mkv`
to a path in the `processed` sibling of its parent directory (the
grandparent joined with `processed`) whose basename ends in `.mp4`. -/
theorem claim_C1 (compile : String → Except String (List Char → List Char))
    (isFile : PyPath → Bool) (infile : PyPath)
    (hf : isFile infile = true)
    (he : pyEndsWith (pathName infile).toList ((".mkv").toList) = true) :
    fetch_outfile compile "" isFile infile =
      (Except.ok (infile.dropLast.dropLast ++ ["processed",
        (pyReplace (groupSub (dangerSub (spliced_name (pathName infile).toList)))).asString]),
       [Event.mkdir (infile.dropLast.dropLast ++ ["processed"])]) ∧
    pyEndsWith (pyReplace (groupSub (dangerSub (spliced_name (pathName infile).toList))))
      mp4Suffix = true := by
  constructor
  · unfold fetch_outfile
    simp only [hf, he, Bool.not_true, Bool.false_eq_true, if_false, get_outname_default]
    simp
  · obtain ⟨w, hw⟩ := default_outname_append_mp4 (pathName infile).toList
    rw [hw]
    exact pyEndsWith_append w mp4Suffix

/-- C1 witness: the amended theorem applied at concrete input
`a/b/c.x.mkv` with the identity compile oracle. -/
theorem claim_C1_witness :
    fetch_outfile (fun _ => Except.ok (fun l => l)) "" (fun _ => true) ["a", "b", "c.x.mkv"] =
      (Except.ok ((["a", "b", "c.x.mkv"] : PyPath).dropLast.dropLast ++ ["processed",
        (pyReplace (groupSub (dangerSub (spliced_name
          (pathName ["a", "b", "c.x.mkv"]).toList)))).asString]),
       [Event.mkdir ((["a", "b", "c.x.mkv"] : PyPath).dropLast.dropLast ++ ["processed"])]) ∧
    pyEndsWith (pyReplace (groupSub (dangerSub (spliced_name
      (pathName ["a", "b", "c.x.mkv"]).toList)))) mp4Suffix = true :=
  claim_C1 (fun _ => Except.ok (fun l => l)) (fun _ => true) ["a", "b", "c.x.mkv"] rfl (by decide)

/-- C2 counterexample: on basename `My_Show_[GROUP]_-_S01E01.mkv` the
derivation yields `.mp4`, not `Show-S01E01.mp4`: splitting on the dot
leaves two segments, dropping the first leaves only `mkv`, and all but the
last is the empty join. -/
theorem claim_C2_counterexample :
    get_outname (fun _ => Except.ok (fun l => l)) ""
        (("My_Show_[GROUP]_-_S01E01.mkv").toList) = Except.ok ((".mp4").toList) ∧
    ((".mp4").toList) ≠ (("Show-S01E01.mp4").toList) := by
  constructor
  · decide
  · decide

/-- C2 (amended): with the default configuration, the derivation applied to
the basename `My_Show_[GROUP]_-_S01E01.mkv` yields the bare `.mp4`: the
single dot means the first-segment drop discards the whole stem. -/
theorem claim_C2 (compile : String → Except String (List Char → List Char)) :
    get_outname compile "" (("My_Show_[GROUP]_-_S01E01.mkv").toList) =
      Except.ok ((".mp4").toList) := by
  rw [get_outname_default]
  decide

/-- C3: with no override pattern configured, the basename returned by
`get_outname` contains no character of the danger class — the eight listed
characters and whitespace — whatever the input basename contained. -/
theorem claim_C3 (compile : String → Except String (List Char → List Char))
    (name out : List Char) (h : get_outname compile "" name = Except.ok out)
    (c : Char) (hc : c ∈ out) : isDanger c = false := by
  rw [get_outname_default] at h
  injection h with h
  rw [← h] at hc
  exact default_outname_no_danger name c hc

/-- C3 witness: the theorem applied to the concrete basename
`x.a b!.mkv`, whose derived output is `ab.mp4`, at its character `b`. -/
theorem claim_C3_witness : isDanger 'b' = false :=
  claim_C3 (fun _ => Except.ok (fun l => l)) (("x.a b!.mkv").toList) (("ab.mp4").toList)
    (by decide) 'b' (by decide)

/-- C4: a non-empty override pattern replaces the danger pass (the override
substitution is applied to the spliced name in its stead), and the fixed
group-tag pass still runs afterwards, so for every input and every override
substitution the final basename contains no `groupnames` match. -/
theorem claim_C4 (f : List Char → List Char) (p : String) (hp : p.length > 0)
    (compile : String → Except String (List Char → List Char))
    (hc : compile p = Except.ok f) (name : List Char) :
    get_outname compile p name = Except.ok (pyReplace (groupSub (f (spliced_name name)))) ∧
    hasGroupMatch (pyReplace (groupSub (f (spliced_name name)))) = false := by
  constructor
  · unfold get_outname
    rw [if_pos hp, hc]
  · exact hasGroupMatch_pyReplace_groupSub _

/-- C4 witness: the theorem at the identity override (pattern `z`, which
matches no bracket tag) on the basename `a.b_[GRP]_c.mkv`. -/
theorem claim_C4_witness :
    get_outname (fun _ => Except.ok (fun l => l)) "z" (("a.b_[GRP]_c.mkv").toList) =
      Except.ok (pyReplace (groupSub ((fun l => l)
        (spliced_name (("a.b_[GRP]_c.mkv").toList))))) ∧
    hasGroupMatch (pyReplace (groupSub ((fun l => l)
      (spliced_name (("a.b_[GRP]_c.mkv").toList))))) = false :=
  claim_C4 (fun l => l) "z" (by decide) (fun _ => Except.ok (fun l => l)) rfl
    (("a.b_[GRP]_c.mkv").toList)

/-- C5: `fetch_outfile` raises the is-not-a-file `ValueError` for every
path the filesystem does not report as a regular file — before the
extension is even looked at — and the not-a-matroska `ValueError` for
every regular file whose name does not end in `.mkv`. -/
theorem claim_C5 (compile : String → Except String (List Char → List Char))
    (patternCfg : String) (isFile : PyPath → Bool) (infile : PyPath) :
    (isFile infile = false →
      fetch_outfile compile patternCfg isFile infile =
        (Except.error (PyExc.valueError (pathToStr infile ++ " is not a file or symlink!")),
         [])) ∧
    (isFile infile = true →
      pyEndsWith (pathName infile).toList ((".mkv").toList) = false →
      fetch_outfile compile patternCfg isFile infile =
        (Except.error (PyExc.valueError (pathName infile ++ " is not a matroska video file!")),
         [])) := by
  constructor
  · intro h
    unfold fetch_outfile
    simp only [h, Bool.not_false, if_true]
  · intro h1 h2
    unfold fetch_outfile
    simp only [h1, h2, Bool.not_true, Bool.not_false, Bool.false_eq_true, if_false, if_true]

/-- C5 witness: the two failure branches at concrete inputs: a non-file
path `a/b/c.mkv` and a regular file `a/b/c.txt` without the `.mkv`
extension. -/
theorem claim_C5_witness :
    fetch_outfile (fun _ => Except.ok (fun l => l)) "" (fun _ => false) ["a", "b", "c.mkv"] =
      (Except.error (PyExc.valueError
        (pathToStr ["a", "b", "c.mkv"] ++ " is not a file or symlink!")), []) ∧
    fetch_outfile (fun _ => Except.ok (fun l => l)) "" (fun _ => true) ["a", "b", "c.txt"] =
      (Except.error (PyExc.valueError
        (pathName ["a", "b", "c.txt"] ++ " is not a matroska video file!")), []) :=
  ⟨(claim_C5 (fun _ => Except.ok (fun l => l)) "" (fun _ => false) ["a", "b", "c.mkv"]).1 rfl,
   (claim_C5 (fun _ => Except.ok (fun l => l)) "" (fun _ => true) ["a", "b", "c.txt"]).2 rfl
     (by decide)⟩

/-- C6 counterexample: with the debug flag set and a valid input, the
handler still creates the `processed` directory, because `fetch_outfile`
runs `mkdir` before the debug check is reached. -/
theorem claim_C6_counterexample :
    ({ ffmpeg := "", pattern := "", keep := false, overwrite := true,
       debug := true : Config }).debug = true ∧
    Event.mkdir ["a", "processed"] ∈
      (xfer_ended_signal_cb
        { isFile := fun _ => true, which_ffmpeg := some ("/usr/bin/ffmpeg"),
          compile := fun _ => Except.ok (fun l => l), call := fun _ => 0 }
        { ffmpeg := "", pattern := "", keep := false, overwrite := true, debug := true }
        "c.x.mkv" ["a", "b", "c.x.mkv"]).2 := by
  constructor
  · rfl
  · decide

/-- C6 (amended): with the debug flag set and a valid input, the handler
prints the input and output paths and returns status 0, invoking no
external process and deleting no file; the `processed` directory, however,
is still created during path resolution. -/
theorem claim_C6 (host : Host) (cfg : Config) (filename : String) (infile : PyPath)
    (exe : String) (hff : get_ffmpeg cfg.ffmpeg host.which_ffmpeg = Except.ok exe)
    (hdbg : cfg.debug = true) (outfile : PyPath) (evs : List Event)
    (hfetch : fetch_outfile host.compile cfg.pattern host.isFile infile =
      (Except.ok outfile, evs)) :
    xfer_ended_signal_cb host cfg filename infile =
      (Except.ok 0, evs ++ [Event.print ("Infile path: `" ++ pathToStr infile ++
        "` \nOutfile path: `" ++ pathToStr outfile ++ "` \n")]) ∧
    (evs ++ [Event.print ("Infile path: `" ++ pathToStr infile ++ "` \nOutfile path: `" ++
      pathToStr outfile ++ "` \n")]).all
        (fun e => !isRunProcEvent e && !isUnlinkEvent e) = true ∧
    isMkdirEvent (Event.mkdir (infile.dropLast.dropLast ++ ["processed"])) = true ∧
    Event.mkdir (infile.dropLast.dropLast ++ ["processed"]) ∈ evs := by
  have hevs := fetch_ok_events hfetch
  refine ⟨?_, ?_, rfl, ?_⟩
  · unfold xfer_ended_signal_cb
    rw [hff, hfetch, hdbg]
    rfl
  · subst hevs
    simp [isRunProcEvent, isUnlinkEvent]
  · rw [hevs]
    exact List.mem_singleton.mpr rfl

/-- C6 witness: the amended theorem at the concrete debug-mode run on
`a/b/c.x.mkv`. -/
theorem claim_C6_witness :
    xfer_ended_signal_cb
      { isFile := fun _ => true, which_ffmpeg := some ("/usr/bin/ffmpeg"),
        compile := fun _ => Except.ok (fun l => l), call := fun _ => 0 }
      { ffmpeg := "", pattern := "", keep := false, overwrite := true, debug := true }
      "c.x.mkv" ["a", "b", "c.x.mkv"] =
      (Except.ok 0, [Event.mkdir ["a", "processed"]] ++
        [Event.print ("Infile path: `" ++ pathToStr ["a", "b", "c.x.mkv"] ++
          "` \nOutfile path: `" ++ pathToStr ["a", "processed", "x.mp4"] ++ "` \n")]) ∧
    ([Event.mkdir ["a", "processed"]] ++
      [Event.print ("Infile path: `" ++ pathToStr ["a", "b", "c.x.mkv"] ++
        "` \nOutfile path: `" ++ pathToStr ["a", "processed", "x.mp4"] ++ "` \n")]).all
        (fun e => !isRunProcEvent e && !isUnlinkEvent e) = true ∧
    isMkdirEvent (Event.mkdir ((["a", "b", "c.x.mkv"] : PyPath).dropLast.dropLast ++
      ["processed"])) = true ∧
    Event.mkdir ((["a", "b", "c.x.mkv"] : PyPath).dropLast.dropLast ++ ["processed"]) ∈
      [Event.mkdir ["a", "processed"]] :=
  claim_C6
    { isFile := fun _ => true, which_ffmpeg := some ("/usr/bin/ffmpeg"),
      compile := fun _ => Except.ok (fun l => l), call := fun _ => 0 }
    { ffmpeg := "", pattern := "", keep := false, overwrite := true, debug := true }
    "c.x.mkv" ["a", "b", "c.x.mkv"] "/usr/bin/ffmpeg" rfl rfl
    ["a", "processed", "x.mp4"] [Event.mkdir ["a", "processed"]] (by decide)

/-- C7: when the handler reaches the transcode with the keep flag false,
the source file is deleted and the completion message printed whatever
exit status the child returns — the raw status is handed back to the
host. -/
theorem claim_C7 (host : Host) (cfg : Config) (filename : String) (infile : PyPath)
    (exe : String) (hff : get_ffmpeg cfg.ffmpeg host.which_ffmpeg = Except.ok exe)
    (hdbg : cfg.debug = false) (hkeep : cfg.keep = false)
    (outfile : PyPath) (evs : List Event)
    (hfetch : fetch_outfile host.compile cfg.pattern host.isFile infile =
      (Except.ok outfile, evs)) :
    xfer_ended_signal_cb host cfg filename infile =
      (Except.ok (host.call
        (do_ffmpeg_args exe (pathToStr infile) (pathToStr outfile) cfg.overwrite)),
       evs ++ [Event.runProc
          (do_ffmpeg_args exe (pathToStr infile) (pathToStr outfile) cfg.overwrite) true true] ++
        [Event.print ("Your file " ++ filename ++ " has been converted to mp4 and stored in " ++
          pathToStr outfile)] ++
        [Event.unlink infile,
         Event.print ("Due to your preferences, the original mkv has been removed \n")]) ∧
    Event.unlink infile ∈ (xfer_ended_signal_cb host cfg filename infile).2 ∧
    Event.print ("Your file " ++ filename ++ " has been converted to mp4 and stored in " ++
      pathToStr outfile) ∈ (xfer_ended_signal_cb host cfg filename infile).2 := by
  have hmain : xfer_ended_signal_cb host cfg filename infile =
      (Except.ok (host.call
        (do_ffmpeg_args exe (pathToStr infile) (pathToStr outfile) cfg.overwrite)),
       evs ++ [Event.runProc
          (do_ffmpeg_args exe (pathToStr infile) (pathToStr outfile) cfg.overwrite) true true] ++
        [Event.print ("Your file " ++ filename ++ " has been converted to mp4 and stored in " ++
          pathToStr outfile)] ++
        [Event.unlink infile,
         Event.print ("Due to your preferences, the original mkv has been removed \n")]) := by
    unfold xfer_ended_signal_cb
    rw [hff, hfetch, hdbg, hkeep]
    rfl
  refine ⟨hmain, ?_, ?_⟩
  · rw [hmain]
    simp
  · rw [hmain]
    simp

/-- C7 witness: the theorem at a concrete run whose child exits with the
non-zero status 1. -/
theorem claim_C7_witness :
    xfer_ended_signal_cb
      { isFile := fun _ => true, which_ffmpeg := some ("/usr/bin/ffmpeg"),
        compile := fun _ => Except.ok (fun l => l), call := fun _ => 1 }
      { ffmpeg := "", pattern := "", keep := false, overwrite := true, debug := false }
      "c.x.mkv" ["a", "b", "c.x.mkv"] =
      (Except.ok 1,
       [Event.mkdir ["a", "processed"]] ++ [Event.runProc
          (do_ffmpeg_args "/usr/bin/ffmpeg" (pathToStr ["a", "b", "c.x.mkv"])
            (pathToStr ["a", "processed", "x.mp4"]) true) true true] ++
        [Event.print ("Your file " ++ "c.x.mkv" ++
          " has been converted to mp4 and stored in " ++
          pathToStr ["a", "processed", "x.mp4"])] ++
        [Event.unlink ["a", "b", "c.x.mkv"],
         Event.print ("Due to your preferences, the original mkv has been removed \n")]) ∧
    Event.unlink ["a", "b", "c.x.mkv"] ∈
      (xfer_ended_signal_cb
        { isFile := fun _ => true, which_ffmpeg := some ("/usr/bin/ffmpeg"),
          compile := fun _ => Except.ok (fun l => l), call := fun _ => 1 }
        { ffmpeg := "", pattern := "", keep := false, overwrite := true, debug := false }
        "c.x.mkv" ["a", "b", "c.x.mkv"]).2 ∧
    Event.print ("Your file " ++ "c.x.mkv" ++ " has been converted to mp4 and stored in " ++
      pathToStr ["a", "processed", "x.mp4"]) ∈
      (xfer_ended_signal_cb
        { isFile := fun _ => true, which_ffmpeg := some ("/usr/bin/ffmpeg"),
          compile := fun _ => Except.ok (fun l => l), call := fun _ => 1 }
        { ffmpeg := "", pattern := "", keep := false, overwrite := true, debug := false }
        "c.x.mkv" ["a", "b", "c.x.mkv"]).2 :=
  claim_C7
    { isFile := fun _ => true, which_ffmpeg := some ("/usr/bin/ffmpeg"),
      compile := fun _ => Except.ok (fun l => l), call := fun _ => 1 }
    { ffmpeg := "", pattern := "", keep := false, overwrite := true, debug := false }
    "c.x.mkv" ["a", "b", "c.x.mkv"] "/usr/bin/ffmpeg" rfl rfl rfl
    ["a", "processed", "x.mp4"] [Event.mkdir ["a", "processed"]] (by decide)

/-- C8: `do_ffmpeg` builds exactly the fixed stream-copy argument list,
appends `-y` precisely when the overwrite flag is set, discards the
child's standard output and standard error, and passes the raw exit
status through unchanged. -/
theorem claim_C8 (host : Host) (overwrite : Bool) (exe infile outfile : String) :
    do_ffmpeg host overwrite exe infile outfile =
      (host.call ([exe, "-i", infile, "-c", "copy", "-strict", "-2", "-c:s", "mov_text",
        outfile] ++ (if overwrite then ["-y"] else [])),
       [Event.runProc ([exe, "-i", infile, "-c", "copy", "-strict", "-2", "-c:s", "mov_text",
         outfile] ++ (if overwrite then ["-y"] else [])) true true]) := rfl

/-- C9: a non-empty configured transcoder path is returned unchecked;
with no configured path the search-path result decides, and when that is
empty the handler prints the not-found message and stops with status 1
before any path resolution or transcode: its whole trace is that one
message. -/
theorem claim_C9 (custom fpath : String) (w : Option String) (host : Host) (cfg : Config)
    (filename : String) (infile : PyPath)
    (hcfg : cfg.ffmpeg = "") (hw : host.which_ffmpeg = none) :
    (custom.length > 0 → get_ffmpeg custom w = Except.ok custom) ∧
    get_ffmpeg "" (some fpath) = Except.ok fpath ∧
    xfer_ended_signal_cb host cfg filename infile =
      (Except.ok 1, [Event.print
        ("Error: ffmpeg could not be found on the system! Please install ffmpeg or unload this plugin!")]) := by
  refine ⟨?_, rfl, ?_⟩
  · intro h
    unfold get_ffmpeg
    rw [if_pos h]
  · unfold xfer_ended_signal_cb
    rw [hcfg, hw]
    rfl

/-- C9 witness: the three branches at concrete values: an override path,
a search-path hit, and the aborting run with neither. -/
theorem claim_C9_witness :
    get_ffmpeg ("/opt/ffmpeg") none = Except.ok ("/opt/ffmpeg") ∧
    get_ffmpeg "" (some ("/usr/bin/ffmpeg")) = Except.ok ("/usr/bin/ffmpeg") ∧
    xfer_ended_signal_cb
      { isFile := fun _ => true, which_ffmpeg := none,
        compile := fun _ => Except.ok (fun l => l), call := fun _ => 0 }
      { ffmpeg := "", pattern := "", keep := false, overwrite := true, debug := false }
      "f" ["a", "b", "c.mkv"] =
      (Except.ok 1, [Event.print
        ("Error: ffmpeg could not be found on the system! Please install ffmpeg or unload this plugin!")]) :=
  have h := claim_C9 ("/opt/ffmpeg") ("/usr/bin/ffmpeg") none
    { isFile := fun _ => true, which_ffmpeg := none,
      compile := fun _ => Except.ok (fun l => l), call := fun _ => 0 }
    { ffmpeg := "", pattern := "", keep := false, overwrite := true, debug := false }
    "f" ["a", "b", "c.mkv"] rfl rfl
  ⟨h.1 (by decide), h.2.1, h.2.2⟩

/-- C10: a non-empty override pattern that fails to compile makes
`get_outname` raise `re.error`, which is not a `ValueError`, so it escapes
the handler's catch: the invocation ends in an uncaught exception — no
path-error message is printed and no status 1 is returned. -/
theorem claim_C10 (host : Host) (cfg : Config) (filename : String) (infile : PyPath)
    (exe : String) (hff : get_ffmpeg cfg.ffmpeg host.which_ffmpeg = Except.ok exe)
    (m : String) (hp : cfg.pattern.length > 0)
    (hc : host.compile cfg.pattern = Except.error m)
    (hfile : host.isFile infile = true)
    (hext : pyEndsWith (pathName infile).toList ((".mkv").toList) = true) :
    xfer_ended_signal_cb host cfg filename infile =
      (Except.error (PyExc.reError m),
       [Event.mkdir (infile.dropLast.dropLast ++ ["processed"])]) ∧
    isValueError (PyExc.reError m) = false := by
  have hfetch : fetch_outfile host.compile cfg.pattern host.isFile infile =
      (Except.error (PyExc.reError m),
       [Event.mkdir (infile.dropLast.dropLast ++ ["processed"])]) := by
    unfold fetch_outfile
    simp only [hfile, hext, Bool.not_true, Bool.false_eq_true, if_false]
    unfold get_outname
    rw [if_pos hp, hc]
  constructor
  · unfold xfer_ended_signal_cb
    rw [hff, hfetch]
  · rfl

/-- C10 witness: the theorem at the genuinely malformed override pattern
`(` on the valid input `a/b/c.x.mkv`. -/
theorem claim_C10_witness :
    xfer_ended_signal_cb
      { isFile := fun _ => true, which_ffmpeg := none,
        compile := fun _ => Except.error ("missing ), unterminated subpattern"),
        call := fun _ => 0 }
      { ffmpeg := "/usr/bin/ffmpeg", pattern := "(", keep := false, overwrite := true,
        debug := false }
      "c.x.mkv" ["a", "b", "c.x.mkv"] =
      (Except.error (PyExc.reError ("missing ), unterminated subpattern")),
       [Event.mkdir ((["a", "b", "c.x.mkv"] : PyPath).dropLast.dropLast ++ ["processed"])]) ∧
    isValueError (PyExc.reError ("missing ), unterminated subpattern")) = false :=
  claim_C10
    { isFile := fun _ => true, which_ffmpeg := none,
      compile := fun _ => Except.error ("missing ), unterminated subpattern"),
      call := fun _ => 0 }
    { ffmpeg := "/usr/bin/ffmpeg", pattern := "(", keep := false, overwrite := true,
      debug := false }
    "c.x.mkv" ["a", "b", "c.x.mkv"] "/usr/bin/ffmpeg" rfl
    ("missing ), unterminated subpattern") (by decide) rfl rfl (by decide)

